import Mathlib

/-!
Verification of the vabhub-deploy release/rollback coordination scripts.

Each definition below is a shallow embedding of a Python function from the
repository (file and symbol named in its doc comment).  External collaborators
(registry queries, git/docker invocations, status probes) are passed in as
parameters, following the spec's external-interface model; the concrete
simulated collaborators from the source are embedded as separate definitions.
Strings model Python `str` restricted to the ASCII repertoire used by the
version/status values handled here.
-/

namespace VabHub

/-! ## Basic string utilities (modelling Python `str.split` and char classes) -/

/-- Split a character list at every occurrence of `sep`, like Python
`s.split(sep)` for a one-character separator: always returns at least one
(possibly empty) part. -/
def splitOnChar (sep : Char) : List Char → List (List Char)
  | [] => [[]]
  | c :: cs =>
    match splitOnChar sep cs with
    | [] => if c == sep then [[], []] else [[c]]
    | p :: ps => if c == sep then [] :: p :: ps else (c :: p) :: ps

/-- Split at the first occurrence of `sep`: the part before it, and
`some` rest after it when `sep` occurs at all. -/
def splitAtFirst (sep : Char) : List Char → List Char × Option (List Char)
  | [] => ([], none)
  | c :: cs =>
    if c == sep then ([], some cs)
    else
      match splitAtFirst sep cs with
      | (pre, rest) => (c :: pre, rest)

/-- Characters allowed in semver prerelease/build identifiers: `[0-9a-zA-Z-]`. -/
def idChar (c : Char) : Bool :=
  c.isDigit || c.isAlpha || c == '-'

/-- The regex group `(0|[1-9]\d*)`: a numeric component with no leading zero
(except the literal `0`). -/
def numericComponent : List Char → Bool
  | [] => false
  | [c] => c.isDigit
  | c :: cs => ('1' ≤ c && c ≤ '9') && cs.all Char.isDigit

/-- The regex prerelease-identifier group
`(0|[1-9]\d*|\d*[a-zA-Z-][0-9a-zA-Z-]*)`: a nonempty `[0-9a-zA-Z-]` word that,
when it is all digits, has no leading zero. -/
def prereleaseId (s : List Char) : Bool :=
  !s.isEmpty && s.all idChar &&
    (!s.all Char.isDigit || numericComponent s)

/-- The regex build-identifier group `[0-9a-zA-Z-]+`. -/
def buildId (s : List Char) : Bool :=
  !s.isEmpty && s.all idChar

/-- Python's `$` anchor (no MULTILINE) also matches just before one trailing
newline, so `re.match(pat, s)` with a `$`-terminated pattern accepts `s`
exactly when it accepts `s` with one trailing newline removed. -/
def stripTrailingNewline (s : List Char) : List Char :=
  match s.reverse with
  | '\n' :: rest => rest.reverse
  | _ => s

namespace VersionManager

/-- `scripts/version_manager.py`, `VersionManager.validate_version_format`:
`re.match` of the anchored pattern
`^v?(0|[1-9]\d*)\.(0|[1-9]\d*)\.(0|[1-9]\d*)`
`(?:-((?:0|[1-9]\d*|\d*[a-zA-Z-][0-9a-zA-Z-]*)(?:\.(?:0|[1-9]\d*|\d*[a-zA-Z-][0-9a-zA-Z-]*))*))?`
`(?:\+([0-9a-zA-Z-]+(?:\.[0-9a-zA-Z-]+)*))?$`.
Decomposed: after an optional leading `v`, the first `+` (if any) starts the
build part and the first `-` before that (if any) starts the prerelease part,
since neither character may occur earlier in the match; the version part is
three dot-separated numeric components, prerelease/build parts are
dot-separated identifier lists. -/
def validate_version_format (version : String) : Bool :=
  let s := stripTrailingNewline version.data
  let s := match s with
    | 'v' :: rest => rest
    | other => other
  let (core, buildPart) := splitAtFirst '+' s
  let (ver, prePart) := splitAtFirst '-' core
  let vparts := splitOnChar '.' ver
  (vparts.length == 3 && vparts.all numericComponent) &&
    (match prePart with
     | none => true
     | some p => (splitOnChar '.' p).all prereleaseId) &&
    (match buildPart with
     | none => true
     | some b => (splitOnChar '.' b).all buildId)

end VersionManager

namespace ReleaseCoordinator

/-- `scripts/release_coordination.py`, `ReleaseCoordinator.is_valid_version`:
`version.split('.')` must have exactly 3 parts, each `str.isdigit()` (nonempty
and all digits; the surrounding `try/except` can never fire on a string
argument). -/
def is_valid_version (version : String) : Bool :=
  let parts := splitOnChar '.' version.data
  parts.length == 3 && parts.all (fun p => !p.isEmpty && p.all Char.isDigit)

end ReleaseCoordinator

namespace ReleaseMonitor

/-- Per-repository status record assembled by
`ReleaseMonitor.get_repository_status`: the three collaborator status strings
(each `success`, `failure` or `unknown`). -/
structure RepoStatus where
  build_status : String
  test_status : String
  deployment_status : String
deriving DecidableEq, Repr

/-- `scripts/release_monitor.py`, `ReleaseMonitor.calculate_health_score`:
start from 100, subtract 30 if the build status is not `success`, 30 if the
test status is not `success`, 40 if the deployment status is not `success`,
and floor the result at 0 (`max(0, score)`). -/
def calculate_health_score (st : RepoStatus) : Int :=
  let score : Int := 100
  let score := if st.build_status ≠ "success" then score - 30 else score
  let score := if st.test_status ≠ "success" then score - 30 else score
  let score := if st.deployment_status ≠ "success" then score - 40 else score
  max 0 score

end ReleaseMonitor

/-! ## Dependency configuration and release order -/

/-- A repository/dependency table: declaration-ordered list of
`(repository id, list of dependency ids)`, modelling the Python dict
`{repo: deps}` (insertion-ordered) of `VersionManager.repos` /
`ReleaseCoordinator.dependencies`. -/
abbrev Cfg := List (String × List String)

/-- The repository ids in declaration order (`dict` keys / `self.repos`). -/
def Cfg.ids (cfg : Cfg) : List String := cfg.map Prod.fst

/-- Dependency lookup, `self.dependencies.get(repo, [])`. -/
def Cfg.depsOf (cfg : Cfg) (r : String) : List String :=
  ((cfg.lookup r).getD [])

/-- One full scan of the `for repo in repos` body inside the topological
`while` loop shared by `VersionManager._get_release_order` and
`ReleaseCoordinator.generate_release_plan`: in declaration order, place every
not-yet-placed repo whose dependencies are all already placed.  `released`
(a set updated in lockstep with the order list) is represented by membership
in the order list itself. -/
def scanPass : Cfg → List String → List String
  | [], order => order
  | (r, ds) :: rest, order =>
    if r ∈ order then scanPass rest order
    else if ds.all (fun d => decide (d ∈ order)) then scanPass rest (order ++ [r])
    else scanPass rest order

/-- The `while len(released) < len(self.repos)` loop, with explicit fuel
(number of remaining scans): `none` means the fuel ran out with repos still
unplaced, which in the Python source is an infinite loop (the loop body has
no other exit and raises nothing). -/
def releaseOrderFuel (cfg : Cfg) : Nat → List String → Option (List String)
  | 0, order => if cfg.length ≤ order.length then some order else none
  | fuel + 1, order =>
    if cfg.length ≤ order.length then some order
    else releaseOrderFuel cfg fuel (scanPass cfg order)

/-- `VersionManager._get_release_order` / the release-order computation of
`ReleaseCoordinator.generate_release_plan`, run from the empty state.
`cfg.length` scans always suffice on acyclic input (each scan places at least
one repo), so `none` exactly signals the Python infinite loop. -/
def release_order (cfg : Cfg) : Option (List String) :=
  releaseOrderFuel cfg cfg.length []

/-- The state of the topological loop after `k` full scans, starting empty:
`releaseOrderFuel` returns one of these states (the first complete one). -/
def passes (cfg : Cfg) : Nat → List String
  | 0 => []
  | k + 1 => scanPass cfg (passes cfg k)

/-- A dependency table is acyclic when some arrangement `ts` of ids puts every
dependency strictly before its dependent. -/
def Acyclic (cfg : Cfg) : Prop :=
  ∃ ts : List String, cfg.ids ⊆ ts ∧
    ∀ rd ∈ cfg, ∀ d ∈ rd.2, ts.indexOf d < ts.indexOf rd.1

/-- Every dependency mentioned in the table is itself a declared repository id
(true of all tables hardcoded in the repository). -/
def Cfg.closed (cfg : Cfg) : Prop :=
  ∀ rd ∈ cfg, ∀ d ∈ rd.2, d ∈ cfg.ids

/-- Loop invariant of the topological scan: every placed repo has all its
dependencies placed at strictly smaller positions. -/
def Inv (cfg : Cfg) (order : List String) : Prop :=
  ∀ rd ∈ cfg, rd.1 ∈ order → ∀ d ∈ rd.2,
    d ∈ order ∧ order.indexOf d < order.indexOf rd.1

/-- The dependency table hardcoded in `ReleaseCoordinator.__init__`
(`self.repos` declaration order with `self.dependencies`); the same graph,
in a different declaration order, appears in `VersionManager.repos`,
`DependencyManager.repositories` and `AutoRollback.determine_rollback_order`. -/
def coordinatorCfg : Cfg :=
  [("vabhub-core", []),
   ("vabhub-frontend", ["vabhub-core"]),
   ("vabhub-plugins", ["vabhub-core"]),
   ("vabhub-resources", []),
   ("vabhub-deploy", ["vabhub-core", "vabhub-frontend", "vabhub-plugins"])]

/-- A two-repository dependency cycle, used as concrete input to the
topological loop. -/
def cycleCfg : Cfg := [("repo-a", ["repo-b"]), ("repo-b", ["repo-a"])]

namespace ReleaseCoordinator

/-- `ReleaseCoordinator.__init__`, `self.repos`: the tracked repository list. -/
def repos : List String :=
  ["vabhub-core", "vabhub-frontend", "vabhub-plugins",
   "vabhub-resources", "vabhub-deploy"]

end ReleaseCoordinator

namespace AutoRollback

/-- The `dependency_graph` dict hardcoded inside
`AutoRollback.determine_rollback_order`, in its declaration order. -/
def dependency_graph : Cfg :=
  [("vabhub-deploy", ["vabhub-core", "vabhub-frontend", "vabhub-plugins"]),
   ("vabhub-frontend", ["vabhub-core"]),
   ("vabhub-plugins", ["vabhub-core"]),
   ("vabhub-core", []),
   ("vabhub-resources", [])]

/-- The recursive `visit` closure of `AutoRollback.determine_rollback_order`:
mark the repo visited, recurse into its dependencies, then append the repo to
the order (a depth-first postorder).  State is `(visited, order)`; the fuel
bounds recursion depth and is never exhausted on the hardcoded graph (its
longest dependency chain has length 2). -/
def visit (g : Cfg) : Nat → String → List String × List String → List String × List String
  | 0, _, st => st
  | fuel + 1, repo, (visited, order) =>
    if repo ∈ visited then (visited, order)
    else
      let st := (g.depsOf repo).foldl (fun st d => visit g fuel d st) (visited ++ [repo], order)
      (st.1, st.2 ++ [repo])

/-- `scripts/auto_rollback.py`, `AutoRollback.determine_rollback_order`:
run `visit` over every key of the hardcoded `dependency_graph` and return the
accumulated order. -/
def determine_rollback_order : List String :=
  (dependency_graph.foldl
    (fun st rd => visit dependency_graph dependency_graph.length rd.1 st)
    ([], [])).2

/-- Python `int(s)` on the first dot-component of a version string, as used by
`assess_rollback_risk` (`int(v.split('.')[0])`): `some` the numeric value when
the component is a nonempty digit string, `none` when `int` would raise. -/
def majorOf (v : String) : Option Nat :=
  let part := (splitAtFirst '.' v.data).1
  if part.isEmpty || !part.all Char.isDigit then none
  else some (part.foldl (fun n c => 10 * n + (c.toNat - '0'.toNat)) 0)

/-- The fields of the rollback-plan dict relevant to risk/duration:
`from_version`, `to_version`, and the keys of `plan['repositories']`. -/
structure RollbackPlan where
  from_version : String
  to_version : String
  repositories : List String
deriving DecidableEq, Repr

/-- `scripts/auto_rollback.py`, `AutoRollback.assess_rollback_risk`:
3 risk points if the major components of `from_version` and `to_version`
differ, plus 2 points if the plan covers more than 3 repositories;
`≥ 3 → high`, `≥ 1 → medium`, else `low`.  `none` models the `int()`
`ValueError` on a non-numeric major component. -/
def assess_rollback_risk (plan : RollbackPlan) : Option String :=
  match majorOf plan.from_version, majorOf plan.to_version with
  | some fromMajor, some toMajor =>
    let riskFactors := (if fromMajor ≠ toMajor then 3 else 0) +
      (if plan.repositories.length > 3 then 2 else 0)
    some (if riskFactors ≥ 3 then "high"
          else if riskFactors ≥ 1 then "medium"
          else "low")
  | _, _ => none

/-- `scripts/auto_rollback.py`, `AutoRollback.estimate_rollback_duration`:
base 5 minutes, plus 2 per repository, plus
`{low: 0, medium: 5, high: 10}.get(risk, 0)`. -/
def estimate_rollback_duration (repositories : List String) (risk : String) : Nat :=
  5 + repositories.length * 2 +
    (if risk = "low" then 0 else if risk = "medium" then 5
     else if risk = "high" then 10 else 0)

/-- `scripts/auto_rollback.py`, `AutoRollback.generate_rollback_plan`
(the fields that feed risk and duration): the repositories are exactly the
entries of `determine_rollback_order`, then `risk_assessment` and
`estimated_duration` are filled from `assess_rollback_risk` and
`estimate_rollback_duration`.  `none` models the uncaught `ValueError` of the
risk assessment. -/
def generate_rollback_plan (fromVersion toVersion : String) :
    Option (RollbackPlan × String × Nat) :=
  let plan : RollbackPlan :=
    { from_version := fromVersion
      to_version := toVersion
      repositories := determine_rollback_order }
  match assess_rollback_risk plan with
  | none => none
  | some risk => some (plan, risk, estimate_rollback_duration plan.repositories risk)

end AutoRollback

/-! ## Release plan structure and executors -/

namespace ReleaseCoordinator

/-- Per-repository entry of `plan['repositories'][repo]` built by
`ReleaseCoordinator.generate_release_plan`: observed current version (the
registry collaborator may return nothing), target version, and the
`release_ready` compatibility flag. -/
structure RepoEntry where
  current_version : Option String
  target_version : String
  release_ready : Bool
deriving Repr

/-- The fields of the release-plan dict used by plan validation and
execution: `version`, `release_order`, and the `repositories` mapping. -/
structure Plan where
  version : String
  release_order : List String
  repositories : List (String × RepoEntry)
deriving Repr

/-- `scripts/release_coordination.py`, `ReleaseCoordinator.validate_release_plan`:
collects an issue for every repository entry that is not `release_ready` and
for every target version rejected by `is_valid_version`; succeeds exactly when
no issue was collected. -/
def validate_release_plan (plan : Plan) : Bool :=
  plan.repositories.all (fun re =>
    re.2.release_ready && is_valid_version re.2.target_version)

/-- `scripts/release_coordination.py`, `ReleaseCoordinator.execute_release_plan`,
with the external release action abstracted: `releaseResult repo` is the value
`self.release_repository(repo, plan['version'])` would return if invoked (in
the source it is a simulation that always returns `True`).  Returns `none` for
the `KeyError` of `plan['repositories'][repo]` when a repo of the release
order has no entry; otherwise `some (overall result, repos actually released)`.
The second component lists every invocation of the external action, in order:
in dry-run the loop only prints and never invokes it; live, the first `False`
result returns immediately. -/
def execute_release_plan (plan : Plan) (releaseResult : String → Bool)
    (dryRun : Bool) : Option (Bool × List String) :=
  if !validate_release_plan plan then some (false, [])
  else go plan.release_order []
where
  go : List String → List String → Option (Bool × List String)
    | [], invoked => some (true, invoked)
    | repo :: rest, invoked =>
      match plan.repositories.lookup repo with
      | none => none
      | some _ =>
        if !dryRun then
          if !releaseResult repo then some (false, invoked ++ [repo])
          else go rest (invoked ++ [repo])
        else go rest invoked

/-- A small well-formed release plan (valid target versions, all repos ready
and covered), used as concrete input to the executors. -/
def samplePlan : Plan :=
  { version := "1.0.0"
    release_order := ["r1", "r2", "r3"]
    repositories :=
      [("r1", { current_version := some "0.9.0", target_version := "1.0.0",
                release_ready := true }),
       ("r2", { current_version := some "0.9.0", target_version := "1.0.0",
                release_ready := true }),
       ("r3", { current_version := none, target_version := "1.0.0",
                release_ready := true })] }

/-- A release plan whose target version `"1.2"` fails `is_valid_version`,
used as concrete input to the executors. -/
def invalidPlan : Plan :=
  { version := "1.2"
    release_order := ["vabhub-core"]
    repositories :=
      [("vabhub-core", { current_version := some "1.0.0",
                         target_version := "1.2", release_ready := true })] }

end ReleaseCoordinator

namespace AutoRelease

/-- `scripts/auto_release.py`, the step loop of `AutoRelease.execute_release`,
with each step's bound action abstracted to its name and the result it would
return when invoked (in the source the five steps are `('更新版本号',
update_versions)`, `('运行集成测试', run_integration_tests)`, `('创建 Git 标签',
create_git_tags)`, `('发布包', publish_packages)`, `('部署验证',
verify_deployment)`).  Returns the overall result together with the names of
the steps whose action was actually invoked, in order: in dry-run every
iteration prints a preview and `continue`s without invoking the action; live,
each step's action is invoked once and the first `False` returns immediately. -/
def execute_release (steps : List (String × Bool)) (dryRun : Bool) :
    Bool × List String :=
  go steps []
where
  go : List (String × Bool) → List String → Bool × List String
    | [], invoked => (true, invoked)
    | (name, result) :: rest, invoked =>
      if dryRun then go rest invoked
      else if !result then (false, invoked ++ [name])
      else go rest (invoked ++ [name])

end AutoRelease

namespace AutoRollback

/-- `scripts/auto_rollback.py`, `AutoRollback.execute_rollback`, with the
per-repository work abstracted to the list of repos processed: when `dry_run`
is set it displays the plan and returns `True` immediately, processing
nothing; live, it iterates `plan['rollback_order']`, printing every step and
check of each repo (the source executes no real command even live), and
returns `True`.  Result is `(return value, repos processed live)`. -/
def execute_rollback (rollbackOrder : List String) (dryRun : Bool) :
    Bool × List String :=
  if dryRun then (true, [])
  else (true, rollbackOrder)

/-- `scripts/auto_rollback.py`, `AutoRollback.get_current_version`: the
simulated observation collaborator, returning `"1.0.0"` for every repo. -/
def get_current_version (_ : String) : String := "1.0.0"

/-- `scripts/auto_rollback.py`, `AutoRollback.check_services_health`: the
simulated health collaborator, always `True`. -/
def check_services_health : Bool := true

/-- `scripts/auto_rollback.py`, `AutoRollback.verify_rollback`, with the two
collaborator queries as parameters (`getCur` = `self.get_current_version`,
`servicesHealthy` = `self.check_services_health()`; the simulated versions are
`get_current_version` and `check_services_health` above).  `all_valid` starts
`True`, is cleared by any repo of `self.coordinator.repos` whose observed
version differs from `to_version` and by unhealthy services; the result is
`all_valid and services_healthy`. -/
def verify_rollback (getCur : String → String) (servicesHealthy : Bool)
    (repos : List String) (toVersion : String) : Bool :=
  let allValid := repos.foldl
    (fun allValid repo => if getCur repo == toVersion then allValid else false)
    true
  let allValid := if servicesHealthy then allValid else false
  allValid && servicesHealthy

end AutoRollback

/-! ## The `check_prerequisites` failure path (claim C10) -/

/-- Errors a modelled Python call can raise. -/
inductive PyError where
  | keyError (key : String)
  | attributeError (name : String)
deriving DecidableEq, Repr

/-- The exact top-level keys of the plan dict returned by
`ReleaseCoordinator.generate_release_plan`: the literal at its head creates
`version`, `timestamp`, `repositories`, `dependencies`, `release_order`, and
the loop body only writes below `repositories` / `dependencies` /
`release_order`. -/
def coordinatorPlanKeys : List String :=
  ["version", "timestamp", "repositories", "dependencies", "release_order"]

/-- The top-level keys after `AutoRelease.generate_release_plan` post-processes
the coordinator plan: it adds `release_type` and `release_description` and
overwrites `timestamp`. -/
def autoReleasePlanKeys : List String :=
  coordinatorPlanKeys ++ ["release_type", "release_description"]

/-- The methods defined on `DependencyManager`
(`scripts/dependency_manager.py`). -/
def dependencyManagerMethods : List String :=
  ["get_package_info", "_get_pypi_package_info", "_get_npm_package_info",
   "check_dependency_compatibility", "generate_dependency_report",
   "validate_docker_compose", "generate_dependency_diagram"]

/-- The methods defined on `VersionManager` (`scripts/version_manager.py`). -/
def versionManagerMethods : List String :=
  ["get_current_version", "set_version", "validate_version_format",
   "check_dependency_compatibility", "generate_version_report",
   "create_git_tag", "update_all_versions", "_get_release_order",
   "generate_changelog"]

namespace AutoRelease

/-- The valid release types (`AutoRelease.release_types` keys). -/
def release_types : List String := ["major", "minor", "patch", "prerelease"]

/-- `scripts/auto_release.py`, `AutoRelease.check_prerequisites`, modelled on
the key set of the plan dict it receives: its first check evaluates
`plan['target_version']` (raising `KeyError` when the key is absent), its
second evaluates `self.dependency_manager.check_all_dependencies()` (raising
`AttributeError` when `DependencyManager` defines no such method); the
remaining checks always return `True` in the source. -/
def check_prerequisites (planKeys : List String) : Except PyError Bool :=
  if "target_version" ∉ planKeys then
    .error (.keyError "target_version")
  else if "check_all_dependencies" ∉ dependencyManagerMethods then
    .error (.attributeError "check_all_dependencies")
  else .ok true

/-- `scripts/auto_release.py`, `AutoRelease.main`, reduced to its control
flow: validate the arguments; generate the plan (whose top-level keys are
`autoReleasePlanKeys`); run `check_prerequisites`, propagating its exception;
only on a `True` result invoke `execute_release`.  The second component
records whether control reached `execute_release`. -/
def mainFlow (version releaseType : String) : Except PyError Nat × Bool :=
  if !(VersionManager.validate_version_format version &&
       decide (releaseType ∈ release_types)) then
    (.ok 1, false)
  else
    match check_prerequisites autoReleasePlanKeys with
    | .error e => (.error e, false)
    | .ok false => (.ok 1, false)
    | .ok true => (.ok 0, true)

end AutoRelease

/-! ## Lemmas about the topological scan -/

theorem scanPass_grows (cfg : Cfg) (order : List String) :
    order <+: scanPass cfg order := by
  induction cfg generalizing order with
  | nil => exact List.prefix_rfl
  | cons rd rest ih =>
    obtain ⟨r, ds⟩ := rd
    by_cases hr : r ∈ order
    · simpa [scanPass, hr] using ih order
    · by_cases hall : ds.all (fun d => decide (d ∈ order)) = true
      · have h1 : order <+: order ++ [r] := List.prefix_append order [r]
        simpa [scanPass, hr, hall] using h1.trans (ih (order ++ [r]))
      · simpa [scanPass, hr, hall] using ih order

theorem subset_scanPass (cfg : Cfg) (order : List String) :
    order ⊆ scanPass cfg order :=
  (scanPass_grows cfg order).subset

theorem mem_scanPass (cfg : Cfg) (order : List String) (x : String)
    (h : x ∈ scanPass cfg order) : x ∈ order ∨ x ∈ cfg.ids := by
  induction cfg generalizing order with
  | nil => exact .inl h
  | cons rd rest ih =>
    obtain ⟨r, ds⟩ := rd
    by_cases hr : r ∈ order
    · simp only [scanPass, if_pos hr] at h
      rcases ih order h with h' | h'
      · exact .inl h'
      · exact .inr (by simp [Cfg.ids] at h' ⊢; exact .inr h')
    · by_cases hall : ds.all (fun d => decide (d ∈ order)) = true
      · simp only [scanPass, if_neg hr, hall, if_true] at h
        rcases ih (order ++ [r]) h with h' | h'
        · rcases List.mem_append.mp h' with h'' | h''
          · exact .inl h''
          · exact .inr (by simp [Cfg.ids]; left; exact List.mem_singleton.mp h'')
        · exact .inr (by simp [Cfg.ids] at h' ⊢; exact .inr h')
      · simp only [scanPass, if_neg hr, hall, if_false] at h
        rcases ih order h with h' | h'
        · exact .inl h'
        · exact .inr (by simp [Cfg.ids] at h' ⊢; exact .inr h')

theorem scanPass_nodup (cfg : Cfg) (order : List String) (h : order.Nodup) :
    (scanPass cfg order).Nodup := by
  induction cfg generalizing order with
  | nil => exact h
  | cons rd rest ih =>
    obtain ⟨r, ds⟩ := rd
    by_cases hr : r ∈ order
    · simpa [scanPass, hr] using ih order h
    · by_cases hall : ds.all (fun d => decide (d ∈ order)) = true
      · have h' : (order ++ [r]).Nodup := by
          simp [List.nodup_append, h, hr]
        simpa [scanPass, hr, hall] using ih (order ++ [r]) h'
      · simpa [scanPass, hr, hall] using ih order h

theorem eligible_mem_scanPass {cfg : Cfg} {r : String} {ds : List String}
    (hmem : (r, ds) ∈ cfg) {order : List String}
    (hds : ∀ d ∈ ds, d ∈ order) : r ∈ scanPass cfg order := by
  induction cfg generalizing order with
  | nil => cases hmem
  | cons rd rest ih =>
    obtain ⟨q, qs⟩ := rd
    rcases List.mem_cons.mp hmem with heq | hmem'
    · obtain ⟨rfl, rfl⟩ := Prod.mk.injEq .. ▸ heq
      by_cases hr : r ∈ order
      · simp only [scanPass, if_pos hr]
        exact subset_scanPass rest order hr
      · have hall : ds.all (fun d => decide (d ∈ order)) = true := by
          simp only [List.all_eq_true, decide_eq_true_eq]
          exact hds
        simp only [scanPass, if_neg hr, hall, if_true]
        exact subset_scanPass rest (order ++ [r]) (by simp)
    · by_cases hq : q ∈ order
      · simp only [scanPass, if_pos hq]
        exact ih hmem' hds
      · by_cases hall : qs.all (fun d => decide (d ∈ order)) = true
        · simp only [scanPass, if_neg hq, hall, if_true]
          exact ih hmem' fun d hd => List.mem_append_left _ (hds d hd)
        · simp only [scanPass, if_neg hq, hall, if_false]
          exact ih hmem' hds

theorem scanPass_progress {cfg : Cfg} (hclosed : cfg.closed) (hacyc : Acyclic cfg)
    {order : List String} (hex : ∃ x ∈ cfg.ids, x ∉ order) :
    order.length < (scanPass cfg order).length := by
  obtain ⟨ts, _, hlt⟩ := hacyc
  classical
  set U := cfg.ids.filter (fun x => decide (x ∉ order)) with hU
  have hUne : U ≠ [] := by
    obtain ⟨x, hx, hxo⟩ := hex
    intro hemp
    have hxU : x ∈ U := by
      rw [hU, List.mem_filter]
      exact ⟨hx, by simpa using hxo⟩
    simp [hemp] at hxU
  obtain ⟨u, hu⟩ : ∃ u, u ∈ U.argmin ts.indexOf := by
    cases hargmin : U.argmin ts.indexOf with
    | none => exact absurd (List.argmin_eq_none.mp hargmin) hUne
    | some u => exact ⟨u, rfl⟩
  have huU : u ∈ U := List.argmin_mem hu
  have humin : ∀ v ∈ U, ts.indexOf u ≤ ts.indexOf v :=
    fun v hv => List.le_of_mem_argmin hv hu
  obtain ⟨huid, huo⟩ := List.mem_filter.mp huU
  have huo : u ∉ order := by simpa using huo
  obtain ⟨⟨u', ds⟩, hmem, hfst⟩ := List.mem_map.mp huid
  simp only at hfst
  subst hfst
  have hds : ∀ d ∈ ds, d ∈ order := by
    intro d hd
    by_contra hdo
    have hdU : d ∈ U := by
      rw [hU, List.mem_filter]
      exact ⟨hclosed _ hmem d hd, by simpa using hdo⟩
    have h1 := humin d hdU
    have h2 : ts.indexOf d < ts.indexOf u' := hlt _ hmem d hd
    omega
  have humem : u' ∈ scanPass cfg order := eligible_mem_scanPass hmem hds
  obtain ⟨tail, htail⟩ := scanPass_grows cfg order
  have hutail : u' ∈ tail := by
    rw [← htail] at humem
    rcases List.mem_append.mp humem with h | h
    · exact absurd h huo
    · exact h
  have : tail ≠ [] := by rintro rfl; cases hutail
  rw [← htail, List.length_append]
  cases tail with
  | nil => exact absurd rfl this
  | cons a t => simp

theorem key_unique {cfg : Cfg} (hk : cfg.ids.Nodup) {r : String}
    {ds1 ds2 : List String} (h1 : (r, ds1) ∈ cfg) (h2 : (r, ds2) ∈ cfg) :
    ds1 = ds2 := by
  induction cfg with
  | nil => cases h1
  | cons rd rest ih =>
    have hk' : rd.1 ∉ List.map Prod.fst rest ∧ (List.map Prod.fst rest).Nodup := by
      simpa [Cfg.ids] using hk
    rcases List.mem_cons.mp h1 with e1 | m1 <;> rcases List.mem_cons.mp h2 with e2 | m2
    · rw [← e2] at e1; exact (Prod.mk.injEq .. ▸ e1).2
    · exfalso
      apply hk'.1
      rw [← e1]
      exact List.mem_map.mpr ⟨(r, ds2), m2, rfl⟩
    · exfalso
      apply hk'.1
      rw [← e2]
      exact List.mem_map.mpr ⟨(r, ds1), m1, rfl⟩
    · exact ih hk'.2 m1 m2

theorem scanPass_inv {cfg : Cfg} (hk : cfg.ids.Nodup) :
    ∀ (l : Cfg) (order : List String),
      (∀ rd ∈ l, rd ∈ cfg) → Inv cfg order → Inv cfg (scanPass l order) := by
  intro l
  induction l with
  | nil => exact fun order _ hi => hi
  | cons rd rest ih =>
    obtain ⟨r, ds⟩ := rd
    intro order hsub hi
    have hsub' : ∀ rd ∈ rest, rd ∈ cfg := fun rd h => hsub rd (List.mem_cons_of_mem _ h)
    by_cases hr : r ∈ order
    · simpa [scanPass, hr] using ih order hsub' hi
    · by_cases hall : ds.all (fun d => decide (d ∈ order)) = true
      · have hds : ∀ d ∈ ds, d ∈ order := by
          simpa only [List.all_eq_true, decide_eq_true_eq] using hall
        have hmem : (r, ds) ∈ cfg := hsub _ (List.mem_cons_self _ _)
        have hinv' : Inv cfg (order ++ [r]) := by
          intro rd' hrd' hmem' d hd
          rcases List.mem_append.mp hmem' with ho | hr'
          · obtain ⟨hdo, hidx⟩ := hi rd' hrd' ho d hd
            refine ⟨List.mem_append_left _ hdo, ?_⟩
            rw [List.indexOf_append_of_mem hdo, List.indexOf_append_of_mem ho]
            exact hidx
          · have hr1 : rd'.1 = r := List.mem_singleton.mp hr'
            have hds2 : rd'.2 = ds := by
              apply key_unique hk ?_ hmem
              rw [← hr1]
              simpa using hrd'
            have hdo : d ∈ order := hds d (hds2 ▸ hd)
            refine ⟨List.mem_append_left _ hdo, ?_⟩
            rw [List.indexOf_append_of_mem hdo, hr1,
              List.indexOf_append_of_not_mem hr]
            simp only [List.indexOf_cons_self, Nat.add_zero]
            exact List.indexOf_lt_length.mpr hdo
        simpa [scanPass, hr, hall] using ih (order ++ [r]) hsub' hinv'
      · simpa [scanPass, hr, hall] using ih order hsub' hi

theorem releaseOrderFuel_complete {cfg : Cfg} (hk : cfg.ids.Nodup)
    (hclosed : cfg.closed) (hacyc : Acyclic cfg) :
    ∀ (fuel : Nat) (order : List String), order.Nodup → order ⊆ cfg.ids →
      cfg.length ≤ order.length + fuel →
      ∃ res, releaseOrderFuel cfg fuel order = some res ∧
        res.Nodup ∧ order <+: res ∧ res ⊆ cfg.ids ∧ cfg.length ≤ res.length := by
  intro fuel
  induction fuel with
  | zero =>
    intro order h1 h2 h3
    have h3' : cfg.length ≤ order.length := by omega
    exact ⟨order, by simp [releaseOrderFuel, h3'], h1, List.prefix_rfl, h2, h3'⟩
  | succ fuel ih =>
    intro order h1 h2 h3
    by_cases hdone : cfg.length ≤ order.length
    · exact ⟨order, by simp [releaseOrderFuel, hdone], h1, List.prefix_rfl, h2, hdone⟩
    · have hex : ∃ x ∈ cfg.ids, x ∉ order := by
        by_contra hno
        push_neg at hno
        have hsp : List.Subperm cfg.ids order := hk.subperm hno
        have hlen := hsp.length_le
        have hidlen : cfg.ids.length = cfg.length := by simp [Cfg.ids]
        omega
      have hprog := scanPass_progress hclosed hacyc hex
      obtain ⟨res, hres, hnd, hpre, hsub, hlen⟩ := ih (scanPass cfg order)
        (scanPass_nodup _ _ h1)
        (fun x hx => (mem_scanPass _ _ _ hx).elim (fun h => h2 h) id)
        (by omega)
      refine ⟨res, ?_, hnd, (scanPass_grows cfg order).trans hpre, hsub, hlen⟩
      simpa [releaseOrderFuel, hdone] using hres

theorem releaseOrderFuel_inv {cfg : Cfg} (hk : cfg.ids.Nodup) :
    ∀ (fuel : Nat) (order res : List String), Inv cfg order →
      releaseOrderFuel cfg fuel order = some res → Inv cfg res := by
  intro fuel
  induction fuel with
  | zero =>
    intro order res hi h
    simp only [releaseOrderFuel] at h
    split at h
    · cases h; exact hi
    · cases h
  | succ fuel ih =>
    intro order res hi h
    simp only [releaseOrderFuel] at h
    split at h
    · cases h; exact hi
    · exact ih _ _ (scanPass_inv hk cfg order (fun _ h => h) hi) h

theorem releaseOrderFuel_passes (cfg : Cfg) :
    ∀ (fuel k : Nat) (res : List String),
      releaseOrderFuel cfg fuel (passes cfg k) = some res →
      ∃ m, k ≤ m ∧ res = passes cfg m := by
  intro fuel
  induction fuel with
  | zero =>
    intro k res h
    simp only [releaseOrderFuel] at h
    split at h
    · cases h; exact ⟨k, le_rfl, rfl⟩
    · cases h
  | succ fuel ih =>
    intro k res h
    simp only [releaseOrderFuel] at h
    split at h
    · cases h; exact ⟨k, le_rfl, rfl⟩
    · obtain ⟨m, hm, hr⟩ := ih (k + 1) res h
      exact ⟨m, by omega, hr⟩

theorem passes_prefix_le (cfg : Cfg) {k m : Nat} (h : k ≤ m) :
    passes cfg k <+: passes cfg m := by
  induction m with
  | zero =>
    rw [Nat.le_zero.mp h]
  | succ m ih =>
    by_cases hk : k = m + 1
    · rw [hk]
    · exact (ih (by omega)).trans (scanPass_grows cfg (passes cfg m))

theorem scanPass_append (l₁ l₂ : Cfg) (order : List String) :
    scanPass (l₁ ++ l₂) order = scanPass l₂ (scanPass l₁ order) := by
  induction l₁ generalizing order with
  | nil => rfl
  | cons rd rest ih =>
    obtain ⟨r, ds⟩ := rd
    by_cases hr : r ∈ order
    · simp [scanPass, hr, ih]
    · by_cases hall : ds.all (fun d => decide (d ∈ order)) = true
      · simp [scanPass, hr, hall, ih]
      · simp [scanPass, hr, hall, ih]

theorem scanPass_decl_order {cfg : Cfg} (hk : cfg.ids.Nodup)
    {l₁ l₂ : Cfg} {x y : String} {dsx dsy : List String}
    (hsplit : cfg = l₁ ++ (x, dsx) :: l₂) (hy : (y, dsy) ∈ l₂)
    {P : List String} (hx : x ∉ P) (hyP : y ∉ P)
    (hdsx : ∀ d ∈ dsx, d ∈ P) (hdsy : ∀ d ∈ dsy, d ∈ P) :
    x ∈ scanPass cfg P ∧ y ∈ scanPass cfg P ∧
      (scanPass cfg P).indexOf x < (scanPass cfg P).indexOf y := by
  subst hsplit
  have hids : (l₁.ids ++ x :: l₂.ids).Nodup := by
    simpa [Cfg.ids] using hk
  have hxl₁ : x ∉ l₁.ids := by
    have := (List.nodup_append.mp hids).2.2
    intro hmem
    exact this hmem (List.mem_cons_self _ _)
  have hyl₂ : y ∈ l₂.ids := List.mem_map.mpr ⟨(y, dsy), hy, rfl⟩
  have hyl₁ : y ∉ l₁.ids := by
    have := (List.nodup_append.mp hids).2.2
    intro hmem
    exact this hmem (List.mem_cons_of_mem _ hyl₂)
  have hxy : x ≠ y := by
    have := (List.nodup_append.mp hids).2.1
    rintro rfl
    exact (List.nodup_cons.mp this).1 hyl₂
  rw [scanPass_append]
  set P₁ := scanPass l₁ P with hP₁
  have hxP₁ : x ∉ P₁ := fun h =>
    (mem_scanPass l₁ P x h).elim hx hxl₁
  have hyP₁ : y ∉ P₁ := fun h =>
    (mem_scanPass l₁ P y h).elim hyP hyl₁
  have hPsub : P ⊆ P₁ := subset_scanPass _ _
  have hall : dsx.all (fun d => decide (d ∈ P₁)) = true := by
    simp only [List.all_eq_true, decide_eq_true_eq]
    exact fun d hd => hPsub (hdsx d hd)
  simp only [scanPass, if_neg hxP₁, hall, if_true]
  have hxP₂ : x ∈ P₁ ++ [x] := by simp
  have hyP₂ : y ∉ P₁ ++ [x] := by
    simp only [List.mem_append, List.mem_singleton]
    rintro (h | rfl)
    · exact hyP₁ h
    · exact hxy rfl
  have hymem : y ∈ scanPass l₂ (P₁ ++ [x]) :=
    eligible_mem_scanPass hy
      (fun d hd => List.mem_append_left _ (hPsub (hdsy d hd)))
  obtain ⟨tail, htail⟩ := scanPass_grows l₂ (P₁ ++ [x])
  refine ⟨subset_scanPass _ _ hxP₂, hymem, ?_⟩
  rw [← htail]
  have hid1 : ((P₁ ++ [x]) ++ tail).indexOf x = P₁.length := by
    rw [List.indexOf_append_of_mem hxP₂, List.indexOf_append_of_not_mem hxP₁]
    simp
  have hytail : y ∈ tail := by
    rw [← htail] at hymem
    rcases List.mem_append.mp hymem with h | h
    · exact absurd h hyP₂
    · exact h
  have hid2 : ((P₁ ++ [x]) ++ tail).indexOf y = (P₁.length + 1) + tail.indexOf y := by
    rw [List.indexOf_append_of_not_mem hyP₂]
    simp
  omega

/-! ## Lemmas about the executors -/

theorem execute_release_go_dry (steps : List (String × Bool))
    (invoked : List String) :
    AutoRelease.execute_release.go true steps invoked = (true, invoked) := by
  induction steps generalizing invoked with
  | nil => rfl
  | cons s rest ih =>
    obtain ⟨name, result⟩ := s
    simpa [AutoRelease.execute_release.go] using ih invoked

theorem execute_release_go_live (b : String) (post : List (String × Bool)) :
    ∀ (pre : List (String × Bool)), (∀ s ∈ pre, s.2 = true) →
      ∀ (invoked : List String),
      AutoRelease.execute_release.go false (pre ++ (b, false) :: post) invoked =
        (false, (invoked ++ pre.map Prod.fst) ++ [b]) := by
  intro pre
  induction pre with
  | nil =>
    intro _ invoked
    simp [AutoRelease.execute_release.go]
  | cons s rest ih =>
    intro hpre invoked
    obtain ⟨name, result⟩ := s
    have hres : result = true := hpre (name, result) (List.mem_cons_self _ _)
    subst hres
    have ih' := ih (fun s h => hpre s (List.mem_cons_of_mem _ h)) (invoked ++ [name])
    simp only [List.cons_append, AutoRelease.execute_release.go, Bool.false_eq_true,
      if_false, Bool.not_true, Bool.not_false, if_true, List.append_eq] at ih' ⊢
    rw [ih']
    simp

theorem execute_release_plan_go_dry (plan : ReleaseCoordinator.Plan)
    (f : String → Bool) :
    ∀ (repos : List String), (∀ r ∈ repos, (plan.repositories.lookup r).isSome = true) →
      ∀ (invoked : List String),
      ReleaseCoordinator.execute_release_plan.go plan f true repos invoked =
        some (true, invoked) := by
  intro repos
  induction repos with
  | nil => intro _ _; rfl
  | cons r rest ih =>
    intro hcov invoked
    obtain ⟨e, he⟩ := Option.isSome_iff_exists.mp (hcov r (List.mem_cons_self _ _))
    have ih' := ih (fun x h => hcov x (List.mem_cons_of_mem _ h)) invoked
    simp only [ReleaseCoordinator.execute_release_plan.go, he]
    simpa using ih'

theorem execute_release_plan_go_live (plan : ReleaseCoordinator.Plan)
    (f : String → Bool) (rb : String)
    (hcovb : (plan.repositories.lookup rb).isSome = true) (hfb : f rb = false)
    (rpost : List String) :
    ∀ (rpre : List String), (∀ r ∈ rpre, (plan.repositories.lookup r).isSome = true) →
      (∀ r ∈ rpre, f r = true) → ∀ (invoked : List String),
      ReleaseCoordinator.execute_release_plan.go plan f false (rpre ++ rb :: rpost) invoked =
        some (false, (invoked ++ rpre) ++ [rb]) := by
  intro rpre
  induction rpre with
  | nil =>
    intro _ _ invoked
    obtain ⟨e, he⟩ := Option.isSome_iff_exists.mp hcovb
    simp [ReleaseCoordinator.execute_release_plan.go, he, hfb]
  | cons r rest ih =>
    intro hcov hfpre invoked
    obtain ⟨e, he⟩ := Option.isSome_iff_exists.mp (hcov r (List.mem_cons_self _ _))
    have hfr : f r = true := hfpre r (List.mem_cons_self _ _)
    have ih' := ih (fun x h => hcov x (List.mem_cons_of_mem _ h))
      (fun x h => hfpre x (List.mem_cons_of_mem _ h)) (invoked ++ [r])
    simp only [List.cons_append, ReleaseCoordinator.execute_release_plan.go, he, hfr]
    simp only [Bool.not_true, Bool.not_false, Bool.false_eq_true, if_false, if_true,
      List.append_eq] at ih' ⊢
    rw [ih']
    simp

theorem verify_fold (getCur : String → String) (toV : String) :
    ∀ (repos : List String) (b : Bool),
      repos.foldl (fun acc r => if getCur r == toV then acc else false) b =
        (b && repos.all (fun r => getCur r == toV)) := by
  intro repos
  induction repos with
  | nil => intro b; simp
  | cons r rest ih =>
    intro b
    rw [List.foldl_cons, List.all_cons, ih]
    by_cases h : (getCur r == toV) = true
    · rw [if_pos h, h]
      simp
    · rw [if_neg h]
      have hf : (getCur r == toV) = false := by
        revert h
        cases getCur r == toV <;> simp
      rw [hf]
      simp

/-! ## Claim theorems -/

/-- C1: For every acyclic dependency mapping (with distinct ids and
dependencies drawn from the ids), the release order computed by
`ReleaseCoordinator.generate_release_plan` / `VersionManager._get_release_order`
is a permutation of all repository ids in which every dependency is placed at
a strictly smaller index than its dependent, and any two repos that are
simultaneously eligible at the start of a scan (both unplaced with all
dependencies placed) end up in original declaration order. -/
theorem C1_release_order_topological (cfg : Cfg)
    (hk : cfg.ids.Nodup) (hclosed : cfg.closed) (hacyc : Acyclic cfg) :
    ∃ res, release_order cfg = some res ∧ res.Perm cfg.ids ∧
      (∀ rd ∈ cfg, ∀ d ∈ rd.2, res.indexOf d < res.indexOf rd.1) ∧
      (∀ (k : Nat) (l₁ l₂ : Cfg) (x y : String) (dsx dsy : List String),
        cfg = l₁ ++ (x, dsx) :: l₂ → (y, dsy) ∈ l₂ →
        x ∉ passes cfg k → y ∉ passes cfg k →
        (∀ d ∈ dsx, d ∈ passes cfg k) → (∀ d ∈ dsy, d ∈ passes cfg k) →
        res.indexOf x < res.indexOf y) := by
  obtain ⟨res, hres, hnd, -, hsub, hlen⟩ :=
    releaseOrderFuel_complete hk hclosed hacyc cfg.length []
      (by simp) (by simp) (by simp)
  have hperm : res.Perm cfg.ids := by
    have hsp : List.Subperm res cfg.ids := hnd.subperm hsub
    refine hsp.perm_of_length_le ?_
    have : cfg.ids.length = cfg.length := by simp [Cfg.ids]
    omega
  have hinv : Inv cfg res :=
    releaseOrderFuel_inv hk cfg.length [] res (by intro rd _ h; cases h) hres
  refine ⟨res, hres, hperm, ?_, ?_⟩
  · intro rd hrd d hd
    have hr1 : rd.1 ∈ cfg.ids := List.mem_map.mpr ⟨rd, hrd, rfl⟩
    exact (hinv rd hrd (hperm.symm.subset hr1) d hd).2
  · intro k l₁ l₂ x y dsx dsy hsplit hy hxk hyk hdx hdy
    have hS := scanPass_decl_order hk hsplit hy hxk hyk hdx hdy
    have hxS : x ∈ passes cfg (k + 1) := hS.1
    have hyS : y ∈ passes cfg (k + 1) := hS.2.1
    obtain ⟨m, -, hrm⟩ := releaseOrderFuel_passes cfg cfg.length 0 res hres
    subst hrm
    have hx_ids : x ∈ cfg.ids := by
      rw [hsplit]
      simp [Cfg.ids]
    have hkm1 : k + 1 ≤ m := by
      by_contra hlt
      push_neg at hlt
      have hmk : passes cfg m <+: passes cfg k := passes_prefix_le cfg (by omega)
      exact hxk (hmk.subset (hperm.symm.subset hx_ids))
    obtain ⟨tail2, htail2⟩ := passes_prefix_le cfg hkm1
    rw [← htail2, List.indexOf_append_of_mem hxS, List.indexOf_append_of_mem hyS]
    exact hS.2.2

/-- Witness for C1: the hypotheses hold of the dependency table hardcoded in
the repository, and the theorem applies to it. -/
theorem C1_release_order_topological_witness :
    ((Cfg.ids coordinatorCfg).Nodup ∧ Cfg.closed coordinatorCfg ∧
      Acyclic coordinatorCfg) ∧
    (∃ res, release_order coordinatorCfg = some res ∧
      res.Perm (Cfg.ids coordinatorCfg) ∧
      (∀ rd ∈ coordinatorCfg, ∀ d ∈ rd.2, res.indexOf d < res.indexOf rd.1) ∧
      (∀ (k : Nat) (l₁ l₂ : Cfg) (x y : String) (dsx dsy : List String),
        coordinatorCfg = l₁ ++ (x, dsx) :: l₂ → (y, dsy) ∈ l₂ →
        x ∉ passes coordinatorCfg k → y ∉ passes coordinatorCfg k →
        (∀ d ∈ dsx, d ∈ passes coordinatorCfg k) →
        (∀ d ∈ dsy, d ∈ passes coordinatorCfg k) →
        res.indexOf x < res.indexOf y)) :=
  ⟨⟨by decide, by unfold Cfg.closed; decide,
    ⟨["vabhub-core", "vabhub-frontend", "vabhub-plugins", "vabhub-resources",
      "vabhub-deploy"], fun _ h => h, by decide⟩⟩,
   C1_release_order_topological coordinatorCfg (by decide)
    (by unfold Cfg.closed; decide)
    ⟨["vabhub-core", "vabhub-frontend", "vabhub-plugins", "vabhub-resources",
      "vabhub-deploy"], fun _ h => h, by decide⟩⟩

/-- C2 (code bug): on a cyclic dependency mapping, a full scan of the
topological loop places nothing, so the `while` loop of
`VersionManager._get_release_order` / `ReleaseCoordinator.generate_release_plan`
never terminates — no fuel makes the computation return — and in particular
no `CycleDetected` error is ever raised (the source raises nothing). -/
theorem C2_cycle_infinite_loop :
    scanPass cycleCfg [] = [] ∧
    ∀ fuel, releaseOrderFuel cycleCfg fuel [] = none := by
  refine ⟨by decide, ?_⟩
  intro fuel
  induction fuel with
  | zero => decide
  | succ fuel ih =>
    simp only [releaseOrderFuel]
    rw [if_neg (by decide), show scanPass cycleCfg [] = [] from by decide]
    exact ih

/-- C3 (code bug): `AutoRollback.determine_rollback_order` appends each repo
only after its dependencies (a depth-first postorder), producing a
dependencies-first order — the release order direction — not the claimed
exact reverse: on the hardcoded graph it places the dependency `vabhub-core`
at a strictly smaller index than its dependent `vabhub-deploy`, and it
differs from the reversed release order. -/
theorem C3_rollback_order_not_reverse :
    AutoRollback.determine_rollback_order =
      ["vabhub-core", "vabhub-frontend", "vabhub-plugins", "vabhub-deploy",
       "vabhub-resources"] ∧
    release_order coordinatorCfg =
      some ["vabhub-core", "vabhub-frontend", "vabhub-plugins",
            "vabhub-resources", "vabhub-deploy"] ∧
    AutoRollback.determine_rollback_order ≠
      ["vabhub-core", "vabhub-frontend", "vabhub-plugins", "vabhub-resources",
       "vabhub-deploy"].reverse ∧
    "vabhub-core" ∈ Cfg.depsOf AutoRollback.dependency_graph "vabhub-deploy" ∧
    AutoRollback.determine_rollback_order.indexOf "vabhub-core" <
      AutoRollback.determine_rollback_order.indexOf "vabhub-deploy" := by
  refine ⟨by decide, by decide, by decide, by decide, by decide⟩

/-- C4: in live (non-dry-run) execution both step loops are strictly
sequential and fail-fast: with every step before `b` succeeding and `b`
failing, `AutoRelease.execute_release` reports failure with invocation trace
exactly the predecessors of `b` followed by `b` itself — each invoked once
(no retry) and nothing after `b` ever invoked — and likewise
`ReleaseCoordinator.execute_release_plan` on a validated plan stops at the
first repository whose release action fails. -/
theorem C4_live_fail_fast
    (pre post : List (String × Bool)) (b : String)
    (hpre : ∀ s ∈ pre, s.2 = true)
    (plan : ReleaseCoordinator.Plan) (f : String → Bool)
    (rpre rpost : List String) (rb : String)
    (hvalid : ReleaseCoordinator.validate_release_plan plan = true)
    (horder : plan.release_order = rpre ++ rb :: rpost)
    (hcov : ∀ r ∈ rpre, (plan.repositories.lookup r).isSome = true)
    (hcovb : (plan.repositories.lookup rb).isSome = true)
    (hfpre : ∀ r ∈ rpre, f r = true) (hfb : f rb = false) :
    AutoRelease.execute_release (pre ++ (b, false) :: post) false =
      (false, pre.map Prod.fst ++ [b]) ∧
    ReleaseCoordinator.execute_release_plan plan f false =
      some (false, rpre ++ [rb]) := by
  constructor
  · have h := execute_release_go_live b post pre hpre []
    simpa [AutoRelease.execute_release] using h
  · have h := execute_release_plan_go_live plan f rb hcovb hfb rpost rpre hcov hfpre []
    rw [ReleaseCoordinator.execute_release_plan, hvalid, ← horder] at *
    simpa using h

/-- Witness for C4: the concrete step list `[A, B, C]` with `B` failing, and
a three-repository plan whose middle repository's release action fails. -/
theorem C4_live_fail_fast_witness :
    AutoRelease.execute_release [("A", true), ("B", false), ("C", true)] false =
      (false, ["A", "B"]) ∧
    ReleaseCoordinator.execute_release_plan ReleaseCoordinator.samplePlan
      (fun r => !(r == "r2")) false = some (false, ["r1", "r2"]) :=
  C4_live_fail_fast [("A", true)] [("C", true)] "B" (by decide)
    ReleaseCoordinator.samplePlan (fun r => !(r == "r2")) ["r1"] ["r3"] "r2"
    (by decide) rfl (by decide) (by decide) (by decide) (by decide)

/-- C5 counterexample: in dry-run mode the overall result is not always
success — `ReleaseCoordinator.execute_release_plan` validates the plan first
and returns failure (still invoking nothing) on a plan whose target version
`"1.2"` is invalid. -/
theorem C5_dry_run_counterexample :
    ReleaseCoordinator.execute_release_plan ReleaseCoordinator.invalidPlan
      (fun _ => true) true = some (false, []) := by decide

/-- C5 amended: in dry-run mode no external action is ever invoked and every
step is only previewed: `AutoRelease.execute_release` and
`AutoRollback.execute_rollback` always report success with an empty
invocation trace, and `ReleaseCoordinator.execute_release_plan` does so for
every plan that passes validation (on a plan failing validation it returns
failure, still invoking nothing). -/
theorem C5_dry_run_amended
    (steps : List (String × Bool)) (rollbackOrder : List String)
    (plan : ReleaseCoordinator.Plan) (f : String → Bool)
    (hvalid : ReleaseCoordinator.validate_release_plan plan = true)
    (hcov : ∀ r ∈ plan.release_order, (plan.repositories.lookup r).isSome = true) :
    AutoRelease.execute_release steps true = (true, []) ∧
    AutoRollback.execute_rollback rollbackOrder true = (true, []) ∧
    ReleaseCoordinator.execute_release_plan plan f true = some (true, []) := by
  refine ⟨?_, rfl, ?_⟩
  · have h := execute_release_go_dry steps []
    simpa [AutoRelease.execute_release] using h
  · have h := execute_release_plan_go_dry plan f plan.release_order hcov []
    rw [ReleaseCoordinator.execute_release_plan, hvalid]
    simpa using h

/-- Witness for C5: concrete steps, a concrete rollback order, and the sample
valid plan. -/
theorem C5_dry_run_amended_witness :
    AutoRelease.execute_release [("A", true), ("B", false)] true = (true, []) ∧
    AutoRollback.execute_rollback ["vabhub-deploy", "vabhub-core"] true =
      (true, []) ∧
    ReleaseCoordinator.execute_release_plan ReleaseCoordinator.samplePlan
      (fun _ => false) true = some (true, []) :=
  C5_dry_run_amended [("A", true), ("B", false)] ["vabhub-deploy", "vabhub-core"]
    ReleaseCoordinator.samplePlan (fun _ => false) (by decide) (by decide)

/-- C6 counterexample: the two validators do not accept exactly the claimed
language — `ReleaseCoordinator.is_valid_version` accepts `"1.02.3"` (which
the claim says is rejected), and `VersionManager.validate_version_format`
accepts `"v1.2.3"` (not of the form `MAJOR.MINOR.PATCH[-pre][+build]`). -/
theorem C6_version_validation_counterexample :
    ReleaseCoordinator.is_valid_version "1.02.3" = true ∧
    VersionManager.validate_version_format "v1.2.3" = true := by decide

/-- C6 amended: `VersionManager.validate_version_format` implements semver
with an optional leading `v`: it accepts `"1.2.3"`, `"1.2.3-rc.1"`,
`"0.0.1"` and also `"v1.2.3"`, and rejects `"1.2"`, `"v1.2.3.4"`,
`"1.02.3"`; `ReleaseCoordinator.is_valid_version` merely requires three
dot-separated all-digit components: it accepts `"1.2.3"`, `"0.0.1"` and the
leading-zero `"1.02.3"`, and rejects `"1.2"`, `"v1.2.3.4"`,
`"1.2.3-rc.1"`. -/
theorem C6_version_validation_amended :
    (VersionManager.validate_version_format "1.2.3" = true ∧
     VersionManager.validate_version_format "1.2.3-rc.1" = true ∧
     VersionManager.validate_version_format "0.0.1" = true ∧
     VersionManager.validate_version_format "v1.2.3" = true ∧
     VersionManager.validate_version_format "1.2" = false ∧
     VersionManager.validate_version_format "v1.2.3.4" = false ∧
     VersionManager.validate_version_format "1.02.3" = false) ∧
    (ReleaseCoordinator.is_valid_version "1.2.3" = true ∧
     ReleaseCoordinator.is_valid_version "0.0.1" = true ∧
     ReleaseCoordinator.is_valid_version "1.02.3" = true ∧
     ReleaseCoordinator.is_valid_version "1.2" = false ∧
     ReleaseCoordinator.is_valid_version "v1.2.3.4" = false ∧
     ReleaseCoordinator.is_valid_version "1.2.3-rc.1" = false) := by decide

/-- C7: the health score equals 100 minus 30 when build is not success,
minus 30 when test is not success, minus 40 when deployment is not success,
floored at 0; in particular all-success scores 100, a build failure alone
scores 70, and all-failure scores 0. -/
theorem C7_health_score (st : ReleaseMonitor.RepoStatus) :
    ReleaseMonitor.calculate_health_score st =
      max 0 (100 - (if st.build_status ≠ "success" then 30 else 0)
        - (if st.test_status ≠ "success" then 30 else 0)
        - (if st.deployment_status ≠ "success" then 40 else 0)) ∧
    ReleaseMonitor.calculate_health_score
      ⟨"success", "success", "success"⟩ = 100 ∧
    ReleaseMonitor.calculate_health_score
      ⟨"failure", "success", "success"⟩ = 70 ∧
    ReleaseMonitor.calculate_health_score
      ⟨"failure", "failure", "failure"⟩ = 0 := by
  refine ⟨?_, by decide, by decide, by decide⟩
  unfold ReleaseMonitor.calculate_health_score
  split_ifs <;> norm_num

/-- C8 counterexample: the least-risky plan `generate_rollback_plan` can
produce (equal majors, so no mismatch points) still covers all 5 hardcoded
repositories, hence gets +2 points and is `medium` risk with duration 20 —
so no produced plan is ever a 5-repository low-risk plan of duration 15. -/
theorem C8_risk_duration_counterexample :
    AutoRollback.generate_rollback_plan "1.0.1" "1.0.0" =
      some ({ from_version := "1.0.1", to_version := "1.0.0",
              repositories := ["vabhub-core", "vabhub-frontend",
                "vabhub-plugins", "vabhub-deploy", "vabhub-resources"] },
            "medium", 20) := by decide

/-- C8 amended: for every plan produced by `generate_rollback_plan` (its
versions must have numeric majors), `risk_assessment` follows the points
formula (+3 on major mismatch, +2 when the plan covers more than 3
repositories; `≥ 3` high, `≥ 1` medium, else low) and `estimated_duration`
is 5 + 2×repo_count + the low/medium/high adjustment of 0/5/10.  Every
produced plan covers the 5 hardcoded repositories and so is never low-risk;
the claimed 15-minute figure holds only for the standalone duration function
on a 5-repository low-risk plan record, while a major-version mismatch gives
a high-risk produced plan (of duration 25). -/
theorem C8_risk_duration_amended
    (fromV toV : String) (p : AutoRollback.RollbackPlan) (risk : String)
    (dur : Nat)
    (h : AutoRollback.generate_rollback_plan fromV toV = some (p, risk, dur)) :
    (∃ fromMajor toMajor, AutoRollback.majorOf fromV = some fromMajor ∧
      AutoRollback.majorOf toV = some toMajor ∧
      risk = (if (if fromMajor ≠ toMajor then 3 else 0) +
          (if p.repositories.length > 3 then 2 else 0) ≥ 3 then "high"
        else if (if fromMajor ≠ toMajor then 3 else 0) +
          (if p.repositories.length > 3 then 2 else 0) ≥ 1 then "medium"
        else "low")) ∧
    dur = 5 + 2 * p.repositories.length +
      (if risk = "low" then 0 else if risk = "medium" then 5 else 10) ∧
    p.repositories.length = 5 ∧ risk ≠ "low" ∧
    AutoRollback.estimate_rollback_duration ["r1", "r2", "r3", "r4", "r5"]
      "low" = 15 := by
  have hlen : AutoRollback.determine_rollback_order.length = 5 := by decide
  simp only [AutoRollback.generate_rollback_plan] at h
  cases hm : AutoRollback.assess_rollback_risk
      { from_version := fromV, to_version := toV,
        repositories := AutoRollback.determine_rollback_order } with
  | none => rw [hm] at h; simp at h
  | some r =>
    rw [hm] at h
    simp only [Option.some.injEq, Prod.mk.injEq] at h
    obtain ⟨hp, hr, hd⟩ := h
    subst hp
    subst hr
    subst hd
    cases hmf : AutoRollback.majorOf fromV with
    | none => simp [AutoRollback.assess_rollback_risk, hmf] at hm
    | some fM =>
      cases hmt : AutoRollback.majorOf toV with
      | none => simp [AutoRollback.assess_rollback_risk, hmf, hmt] at hm
      | some tM =>
        simp only [AutoRollback.assess_rollback_risk, hmf, hmt,
          Option.some.injEq] at hm
        have hfacts : (r = "medium" ∧ fM = tM) ∨ (r = "high" ∧ ¬fM = tM) := by
          by_cases hMaj : fM = tM
          · refine .inl ⟨?_, hMaj⟩
            rw [← hm]
            simp [hMaj, hlen]
          · refine .inr ⟨?_, hMaj⟩
            rw [← hm]
            simp [hMaj, hlen]
        have hproj : (AutoRollback.RollbackPlan.mk fromV toV
            AutoRollback.determine_rollback_order).repositories =
            AutoRollback.determine_rollback_order := rfl
        refine ⟨⟨fM, tM, rfl, rfl, hm.symm⟩, ?_, ?_, ?_, by decide⟩
        · rcases hfacts with ⟨hr2, -⟩ | ⟨hr2, -⟩ <;> subst hr2 <;>
            rw [hproj, hlen] <;> decide
        · rw [hproj, hlen]
        · rcases hfacts with ⟨hr2, -⟩ | ⟨hr2, -⟩ <;> subst hr2 <;> decide

/-- Witness for C8: the produced cross-major rollback plan, on which the
theorem's hypothesis holds concretely and yields the high-risk 25-minute
conclusion. -/
theorem C8_risk_duration_amended_witness :
    (AutoRollback.generate_rollback_plan "2.0.0" "1.0.0" =
      some ({ from_version := "2.0.0", to_version := "1.0.0",
              repositories := ["vabhub-core", "vabhub-frontend",
                "vabhub-plugins", "vabhub-deploy", "vabhub-resources"] },
            "high", 25)) ∧
    ((∃ fromMajor toMajor,
        AutoRollback.majorOf "2.0.0" = some fromMajor ∧
        AutoRollback.majorOf "1.0.0" = some toMajor ∧
        "high" = (if (if fromMajor ≠ toMajor then 3 else 0) +
            (if (AutoRollback.RollbackPlan.mk "2.0.0" "1.0.0"
              ["vabhub-core", "vabhub-frontend", "vabhub-plugins",
               "vabhub-deploy", "vabhub-resources"]).repositories.length > 3
              then 2 else 0) ≥ 3 then "high"
          else if (if fromMajor ≠ toMajor then 3 else 0) +
            (if (AutoRollback.RollbackPlan.mk "2.0.0" "1.0.0"
              ["vabhub-core", "vabhub-frontend", "vabhub-plugins",
               "vabhub-deploy", "vabhub-resources"]).repositories.length > 3
              then 2 else 0) ≥ 1 then "medium"
          else "low")) ∧
      25 = 5 + 2 * (AutoRollback.RollbackPlan.mk "2.0.0" "1.0.0"
          ["vabhub-core", "vabhub-frontend", "vabhub-plugins",
           "vabhub-deploy", "vabhub-resources"]).repositories.length +
        (if "high" = "low" then 0 else if "high" = "medium" then 5 else 10) ∧
      (AutoRollback.RollbackPlan.mk "2.0.0" "1.0.0"
        ["vabhub-core", "vabhub-frontend", "vabhub-plugins",
         "vabhub-deploy", "vabhub-resources"]).repositories.length = 5 ∧
      "high" ≠ "low" ∧
      AutoRollback.estimate_rollback_duration ["r1", "r2", "r3", "r4", "r5"]
        "low" = 15) :=
  ⟨by decide,
   C8_risk_duration_amended "2.0.0" "1.0.0"
    (AutoRollback.RollbackPlan.mk "2.0.0" "1.0.0"
      ["vabhub-core", "vabhub-frontend", "vabhub-plugins", "vabhub-deploy",
       "vabhub-resources"]) "high" 25 (by decide)⟩

/-- C9: `AutoRollback.verify_rollback` returns true exactly when every
tracked repository's observed current version equals `to_version` and the
services are healthy; and any single repository observing a different
version forces a false result, even when all others match. -/
theorem C9_verify_rollback (getCur : String → String) (healthy : Bool)
    (toV : String) :
    (AutoRollback.verify_rollback getCur healthy ReleaseCoordinator.repos toV
        = true ↔
      (∀ r ∈ ReleaseCoordinator.repos, getCur r = toV) ∧ healthy = true) ∧
    (∀ r₀ ∈ ReleaseCoordinator.repos, getCur r₀ ≠ toV →
      AutoRollback.verify_rollback getCur healthy ReleaseCoordinator.repos toV
        = false) := by
  have hmain : AutoRollback.verify_rollback getCur healthy
      ReleaseCoordinator.repos toV =
      (ReleaseCoordinator.repos.all (fun r => getCur r == toV) && healthy) := by
    unfold AutoRollback.verify_rollback
    rw [verify_fold getCur toV ReleaseCoordinator.repos true]
    cases healthy <;> simp
  constructor
  · rw [hmain]
    cases healthy <;>
      simp [List.all_eq_true]
  · intro r₀ hr₀ hneq
    rw [hmain]
    have : ReleaseCoordinator.repos.all (fun r => getCur r == toV) = false := by
      rcases hall : ReleaseCoordinator.repos.all (fun r => getCur r == toV) with _ | _
      · rfl
      · exact absurd (of_decide_eq_true (by
          simpa using (List.all_eq_true.mp hall) r₀ hr₀)) hneq
    rw [this]
    simp

/-- Witness for C9: with all repos but `vabhub-plugins` observed at the
target version, verification fails. -/
theorem C9_verify_rollback_witness :
    AutoRollback.verify_rollback
      (fun r => if r == "vabhub-plugins" then "0.9.0" else "1.0.0") true
      ReleaseCoordinator.repos "1.0.0" = false :=
  (C9_verify_rollback
    (fun r => if r == "vabhub-plugins" then "0.9.0" else "1.0.0") true
    "1.0.0").2 "vabhub-plugins" (by decide) (by decide)

/-- C10: `AutoRelease.check_prerequisites` always raises — the plan produced
by `generate_release_plan` has no top-level key `target_version` (the version
is stored under `version`), so `plan['target_version']` raises `KeyError`
first; independently, `DependencyManager` has no method
`check_all_dependencies` and `VersionManager` has no method `create_tags`
(the live tag step calls it); hence the main flow returns without ever
reaching `execute_release`, on every argument. -/
theorem C10_check_prerequisites_always_raises :
    AutoRelease.check_prerequisites autoReleasePlanKeys =
      .error (.keyError "target_version") ∧
    "target_version" ∉ autoReleasePlanKeys ∧
    "check_all_dependencies" ∉ dependencyManagerMethods ∧
    "create_tags" ∉ versionManagerMethods ∧
    ∀ version releaseType : String,
      (AutoRelease.mainFlow version releaseType).2 = false := by
  refine ⟨by rfl, by decide, by decide, by decide, ?_⟩
  intro version releaseType
  unfold AutoRelease.mainFlow
  split
  · rfl
  · rfl

end VabHub
